import Mathlib

/-!
Shallow embedding of the Queue-CTL job queue (src/queuectl) and proofs about
its claims.  Timestamps are modelled as integers (the source stores ISO-8601
UTC strings and SQLite compares them as times via datetime()); the jobs and
dlq tables are lists of rows; every SQL UPDATE ... WHERE id = ? becomes a map
over the job list that rewrites the matching rows.
-/

namespace QueueCtl

/-- Job states, from the CHECK constraint in db.py's jobs schema. -/
inductive JState where
  | pending
  | processing
  | completed
  | failed
  | dead
deriving DecidableEq, Repr

/-- A row of the jobs table (db.py schema). -/
structure Job where
  id : String
  command : String
  state : JState
  attempts : Nat
  max_retries : Nat
  created_at : Int
  updated_at : Int
  retry_at : Option Int
  run_at : Option Int
  priority : Nat
  locked_by : Option Nat
  locked_at : Option Int
  last_error : Option String
  stdout_log : Option String
  stderr_log : Option String
  exit_code : Option Int
  completed_at : Option Int
deriving DecidableEq, Repr

/-- A row of the dlq table (db.py schema); payload is the json snapshot of
the job at the moment of the move. -/
structure DlqEntry where
  id : Nat
  job_id : String
  moved_at : Int
  reason : String
  payload : Job
deriving DecidableEq, Repr

/-- The durable store: the jobs table and the dlq table. -/
structure Store where
  jobs : List Job
  dlq : List DlqEntry
deriving DecidableEq, Repr

/-- db.get_job: SELECT * FROM jobs WHERE id = ?. -/
def getJob (s : Store) (jobId : String) : Option Job :=
  s.jobs.find? (fun j => decide (j.id = jobId))

/-- UPDATE jobs SET ... WHERE id = ?: rewrite the matching rows with f. -/
def updJobs (s : Store) (jobId : String) (f : Job → Job) : Store :=
  { s with jobs := s.jobs.map (fun j => if j.id = jobId then f j else j) }

/-- db.update_job_state. -/
def update_job_state (jobId : String) (st : JState) (now : Int) (s : Store) : Store :=
  updJobs s jobId (fun j => { j with state := st, updated_at := now })

/-- db.increment_job_attempts. -/
def increment_job_attempts (jobId : String) (now : Int) (s : Store) : Store :=
  updJobs s jobId (fun j => { j with attempts := j.attempts + 1, updated_at := now })

/-- db.update_job_error. -/
def update_job_error (jobId : String) (err : String) (now : Int) (s : Store) : Store :=
  updJobs s jobId (fun j => { j with last_error := some err, updated_at := now })

/-- db.set_job_retry_at. -/
def set_job_retry_at (jobId : String) (retryAt : Int) (now : Int) (s : Store) : Store :=
  updJobs s jobId (fun j => { j with retry_at := some retryAt, updated_at := now })

/-- db.unlock_job. -/
def unlock_job (jobId : String) (now : Int) (s : Store) : Store :=
  updJobs s jobId (fun j => { j with locked_by := none, locked_at := none, updated_at := now })

/-- db.update_job_output. -/
def update_job_output (jobId : String) (stdoutLog stderrLog : String) (exitCode : Int)
    (now : Int) (s : Store) : Store :=
  updJobs s jobId (fun j =>
    { j with stdout_log := some stdoutLog, stderr_log := some stderrLog,
             exit_code := some exitCode, updated_at := now })

/-- db.update_job_completed_at. -/
def update_job_completed_at (jobId : String) (now : Int) (s : Store) : Store :=
  updJobs s jobId (fun j => { j with completed_at := some now, updated_at := now })

/-- run_at IS NULL OR datetime(run_at) <= datetime of now
(from pick_pending_job's WHERE clause). -/
def runAtReady (now : Int) (j : Job) : Bool :=
  match j.run_at with
  | none => true
  | some r => decide (r ≤ now)

/-- locked_by IS NULL OR (locked_at IS NOT NULL AND
datetime(locked_at) < now minus lease seconds), from pick_pending_job. -/
def lockFree (now lease : Int) (j : Job) : Bool :=
  match j.locked_by with
  | none => true
  | some _ =>
    match j.locked_at with
    | none => false
    | some t => decide (t < now - lease)

/-- The full WHERE clause of pick_pending_job's SELECT. -/
def eligible (now lease : Int) (j : Job) : Bool :=
  decide (j.state = JState.pending) && runAtReady now j && lockFree now lease j

/-- CASE WHEN priority > 0 THEN 0 ELSE 1 END, from pick_pending_job's ORDER BY. -/
def urgencyClass (j : Job) : Nat :=
  if 0 < j.priority then 0 else 1

/-- Row a sorts strictly before row b under pick_pending_job's ORDER BY:
urgency class ascending, then priority descending, then created_at ascending. -/
def ClaimBeforeP (a b : Job) : Prop :=
  urgencyClass a < urgencyClass b ∨
    (urgencyClass a = urgencyClass b ∧
      (b.priority < a.priority ∨
        (a.priority = b.priority ∧ a.created_at < b.created_at)))

instance (a b : Job) : Decidable (ClaimBeforeP a b) := by
  unfold ClaimBeforeP
  infer_instance

/-- SELECT id ... ORDER BY ... LIMIT 1: scan the table keeping the best
eligible row seen so far (ties keep the earlier row). -/
def pickBest (now lease : Int) (l : List Job) : Option Job :=
  l.foldl
    (fun acc j =>
      if eligible now lease j then
        match acc with
        | none => some j
        | some b => if ClaimBeforeP j b then some j else acc
      else acc)
    none

/-- SET clause of pick_pending_job's UPDATE: lock the row for the worker
and move it to processing. -/
def claimRow (workerPid : Nat) (now : Int) (k : Job) : Job :=
  { k with locked_by := some workerPid, locked_at := some now,
           state := JState.processing, updated_at := now }

/-- db.pick_pending_job: select the best eligible row, then in the same
transaction set locked_by, locked_at, state = processing and updated_at, and
return the re-fetched row. -/
def pick_pending_job (workerPid : Nat) (lease now : Int) (s : Store) :
    Option Job × Store :=
  match pickBest now lease s.jobs with
  | none => (none, s)
  | some j =>
    let s1 := updJobs s j.id (claimRow workerPid now)
    (getJob s1 j.id, s1)

/-- db.move_to_dlq: fetch the job (return silently when absent), insert a dlq
row carrying the pre-move snapshot, and set the job state to dead. -/
def move_to_dlq (jobId : String) (reason : String) (now : Int) (dlqId : Nat)
    (s : Store) : Store :=
  match getJob s jobId with
  | none => s
  | some job =>
    let s1 : Store :=
      { s with dlq := s.dlq ++ [⟨dlqId, jobId, now, reason, job⟩] }
    update_job_state jobId JState.dead now s1

/-- db.get_dlq_job: SELECT * FROM dlq WHERE job_id = ?. -/
def get_dlq_job (s : Store) (jobId : String) : Option DlqEntry :=
  s.dlq.find? (fun e => decide (e.job_id = jobId))

/-- SET clause of requeue_from_dlq's job UPDATE: back to pending with a
fresh retry budget and cleared lock and retry fields. -/
def requeueRow (now : Int) (j : Job) : Job :=
  { j with state := JState.pending, attempts := 0, locked_by := none,
           locked_at := none, retry_at := none, updated_at := now }

/-- db.requeue_from_dlq: when a dlq entry exists, reset the job row to
pending with attempts 0 and cleared lock and retry fields, delete the dlq
rows for that job, and return true; otherwise return false. -/
def requeue_from_dlq (jobId : String) (now : Int) (s : Store) : Bool × Store :=
  match get_dlq_job s jobId with
  | none => (false, s)
  | some _ =>
    let s1 := updJobs s jobId (requeueRow now)
    let s2 : Store := { s1 with dlq := s1.dlq.filter (fun e => !decide (e.job_id = jobId)) }
    (true, s2)

/-- WHERE clause of scheduler.move_ready_jobs_to_pending:
state = pending AND retry_at IS NOT NULL AND datetime(retry_at) < now. -/
def retryReady (now : Int) (j : Job) : Bool :=
  decide (j.state = JState.pending) &&
    match j.retry_at with
    | none => false
    | some r => decide (r < now)

/-- SET clause of scheduler.move_ready_jobs_to_pending: state stays pending
and the lock fields are cleared (retry_at and updated_at are not touched). -/
def promoteRow (j : Job) : Job :=
  { j with state := JState.pending, locked_by := none, locked_at := none }

/-- scheduler.move_ready_jobs_to_pending: the bulk UPDATE plus its rowcount. -/
def move_ready_jobs_to_pending (now : Int) (s : Store) : Nat × Store :=
  ((s.jobs.filter (retryReady now)).length,
   { s with jobs := s.jobs.map (fun j => if retryReady now j then promoteRow j else j) })

/-- utils.calculate_backoff: min(base ** attempts, max_backoff). -/
def calculate_backoff (attempts base maxBackoff : Nat) : Nat :=
  min (base ^ attempts) maxBackoff

/-- utils.calculate_retry_at: now plus the backoff, as a timestamp. -/
def calculate_retry_at (now : Int) (attempts base maxBackoff : Nat) : Int :=
  now + (calculate_backoff attempts base maxBackoff : Int)

/-- worker.Worker._handle_job_success: state completed, completed_at, unlock. -/
def handle_job_success (jobId : String) (now : Int) (s : Store) : Store :=
  unlock_job jobId now
    (update_job_completed_at jobId now
      (update_job_state jobId JState.completed now s))

/-- worker.Worker._handle_job_failure: reload the job, record the error,
then either schedule a retry (attempts < max_retries) or move to the dlq.
When the job row is absent the Python raises before any write, leaving the
store unchanged. -/
def handle_job_failure (jobId : String) (error : String) (backoffBase maxBackoff : Nat)
    (now : Int) (dlqId : Nat) (s : Store) : Store :=
  match getJob s jobId with
  | none => s
  | some job =>
    let s1 := update_job_error jobId error now s
    if job.attempts < job.max_retries then
      let retryAt := calculate_retry_at now job.attempts backoffBase maxBackoff
      unlock_job jobId now
        (update_job_state jobId JState.pending now
          (set_job_retry_at jobId retryAt now s1))
    else
      move_to_dlq jobId ("Max retries exceeded: " ++ error) now dlqId s1

/-- worker.Worker._execute_job: increment attempts, run the command, store
the captured output, then dispatch on the exit code.  The runner stands for
exec.execute_command and returns (exit_code, stdout, stderr). -/
def execute_job (job : Job) (runner : String → Int × String × String)
    (backoffBase maxBackoff : Nat) (now : Int) (dlqId : Nat) (s : Store) : Store :=
  let s1 := increment_job_attempts job.id now s
  let r := runner job.command
  let s2 := update_job_output job.id r.2.1 r.2.2 r.1 now s1
  if r.1 = 0 then
    handle_job_success job.id now s2
  else
    handle_job_failure job.id ("Exit code " ++ toString r.1 ++ ": " ++ r.2.2)
      backoffBase maxBackoff now dlqId s2

/-- worker.Worker._process_one_job: claim one job and execute it. -/
def process_one_job (workerPid : Nat) (lease : Int)
    (runner : String → Int × String × String) (backoffBase maxBackoff : Nat)
    (now : Int) (dlqId : Nat) (s : Store) : Store :=
  match pick_pending_job workerPid lease now s with
  | (none, s1) => s1
  | (some job, s1) => execute_job job runner backoffBase maxBackoff now dlqId s1

/-! ### Helper lemmas about the embedding -/

theorem find_map_upd (i : String) (f : Job → Job) (hf : ∀ j, (f j).id = j.id) :
    ∀ l : List Job,
      (l.map (fun j => if j.id = i then f j else j)).find? (fun j => decide (j.id = i)) =
        (l.find? (fun j => decide (j.id = i))).map f := by
  intro l
  induction l with
  | nil => rfl
  | cons x l ih =>
    by_cases hx : x.id = i
    · simp [List.find?, hx, hf]
    · simp [List.find?, hx, ih]

theorem getJob_updJobs_self (s : Store) (i : String) (f : Job → Job)
    (hf : ∀ j, (f j).id = j.id) :
    getJob (updJobs s i f) i = (getJob s i).map f := by
  unfold getJob updJobs
  exact find_map_upd i f hf s.jobs

theorem updJobs_updJobs (s : Store) (i : String) (f g : Job → Job)
    (hf : ∀ j, (f j).id = j.id) :
    updJobs (updJobs s i f) i g = updJobs s i (fun j => g (f j)) := by
  have hfun : ((fun j => if j.id = i then g j else j) ∘ fun j => if j.id = i then f j else j)
      = fun j : Job => if j.id = i then g (f j) else j := by
    funext j
    by_cases hj : j.id = i
    · simp [Function.comp_apply, hj, hf]
    · simp [Function.comp_apply, hj]
  unfold updJobs
  simp only [List.map_map, hfun]

theorem find_eq_of_mem_nodup {l : List Job} {j : Job}
    (hnd : (l.map Job.id).Nodup) (hm : j ∈ l) :
    l.find? (fun k => decide (k.id = j.id)) = some j := by
  induction l with
  | nil => cases hm
  | cons x l ih =>
    rcases List.mem_cons.mp hm with hx | hx
    · subst hx
      simp [List.find?]
    · have hnd' : x.id ∉ l.map Job.id ∧ (l.map Job.id).Nodup := by
        rw [List.map_cons, List.nodup_cons] at hnd
        exact hnd
      have hne : ¬x.id = j.id := by
        intro he
        exact hnd'.1 (he ▸ List.mem_map_of_mem Job.id hx)
      simp [List.find?, hne, ih hnd'.2 hx]

theorem claimBefore_irrefl (a : Job) : ¬ ClaimBeforeP a a := by
  unfold ClaimBeforeP
  omega

theorem claimBefore_trans {a b c : Job}
    (h1 : ClaimBeforeP a b) (h2 : ClaimBeforeP b c) : ClaimBeforeP a c := by
  unfold ClaimBeforeP at h1 h2 ⊢
  omega

/-- The step function of pickBest's fold. -/
def pickStep (now lease : Int) (acc : Option Job) (j : Job) : Option Job :=
  if eligible now lease j then
    match acc with
    | none => some j
    | some b => if ClaimBeforeP j b then some j else acc
  else acc

theorem pickBest_eq_foldl (now lease : Int) (l : List Job) :
    pickBest now lease l = l.foldl (pickStep now lease) none := rfl

theorem pickFold_mem (now lease : Int) :
    ∀ (l : List Job) (acc : Option Job) (j : Job),
      l.foldl (pickStep now lease) acc = some j →
      acc = some j ∨ (j ∈ l ∧ eligible now lease j = true) := by
  intro l
  induction l with
  | nil => intro acc j h; exact Or.inl h
  | cons x l ih =>
    intro acc j h
    rcases ih (pickStep now lease acc x) j h with h1 | h1
    · by_cases he : eligible now lease x = true
      · cases acc with
        | none =>
          have h1' : some x = some j := by
            have hred : pickStep now lease none x = some x := by
              unfold pickStep
              rw [if_pos he]
            rw [hred] at h1
            exact h1
          obtain rfl : x = j := Option.some.inj h1'
          exact Or.inr ⟨List.mem_cons_self x l, he⟩
        | some b =>
          have hred : pickStep now lease (some b) x =
              if ClaimBeforeP x b then some x else some b := by
            unfold pickStep
            rw [if_pos he]
          rw [hred] at h1
          by_cases hcb : ClaimBeforeP x b
          · rw [if_pos hcb] at h1
            obtain rfl : x = j := Option.some.inj h1
            exact Or.inr ⟨List.mem_cons_self x l, he⟩
          · rw [if_neg hcb] at h1
            exact Or.inl h1
      · have hred : pickStep now lease acc x = acc := by
          unfold pickStep
          rw [if_neg he]
        rw [hred] at h1
        exact Or.inl h1
    · exact Or.inr ⟨List.mem_cons_of_mem x h1.1, h1.2⟩

/-- Once the accumulator holds b, the fold's answer is b or strictly before b. -/
theorem pickFold_improves (now lease : Int) :
    ∀ (l : List Job) (b j : Job),
      l.foldl (pickStep now lease) (some b) = some j →
      j = b ∨ ClaimBeforeP j b := by
  intro l
  induction l with
  | nil =>
    intro b j h
    simp at h
    exact Or.inl h.symm
  | cons x l ih =>
    intro b j h
    have hstep : l.foldl (pickStep now lease) (pickStep now lease (some b) x) = some j := h
    by_cases he : eligible now lease x = true
    · have hred : pickStep now lease (some b) x =
          if ClaimBeforeP x b then some x else some b := by
        unfold pickStep
        rw [if_pos he]
      rw [hred] at hstep
      by_cases hcb : ClaimBeforeP x b
      · rw [if_pos hcb] at hstep
        rcases ih x j hstep with h1 | h1
        · exact Or.inr (h1 ▸ hcb)
        · exact Or.inr (claimBefore_trans h1 hcb)
      · rw [if_neg hcb] at hstep
        exact ih b j hstep
    · have hred : pickStep now lease (some b) x = some b := by
        unfold pickStep
        rw [if_neg he]
      rw [hred] at hstep
      exact ih b j hstep

/-- Every eligible row of the scanned list is not strictly before the answer. -/
theorem pickFold_minimal (now lease : Int) :
    ∀ (l : List Job) (acc : Option Job) (j : Job),
      l.foldl (pickStep now lease) acc = some j →
      ∀ k ∈ l, eligible now lease k = true → ¬ ClaimBeforeP k j := by
  intro l
  induction l with
  | nil => intro acc j _ k hk; cases hk
  | cons x l ih =>
    intro acc j h k hk hke
    rcases List.mem_cons.mp hk with hkx | hkl
    · subst hkx
      -- after processing k, the accumulator is some b with ¬ ClaimBeforeP k b
      have hacc : ∃ b, pickStep now lease acc k = some b ∧ ¬ ClaimBeforeP k b := by
        cases acc with
        | none =>
          refine ⟨k, ?_, claimBefore_irrefl k⟩
          unfold pickStep
          rw [if_pos hke]
        | some b =>
          have hred : pickStep now lease (some b) k =
              if ClaimBeforeP k b then some k else some b := by
            unfold pickStep
            rw [if_pos hke]
          by_cases hcb : ClaimBeforeP k b
          · refine ⟨k, ?_, claimBefore_irrefl k⟩
            rw [hred, if_pos hcb]
          · refine ⟨b, ?_, hcb⟩
            rw [hred, if_neg hcb]
      rcases hacc with ⟨b, hb, hnb⟩
      have hrest : l.foldl (pickStep now lease) (some b) = some j := by
        have : l.foldl (pickStep now lease) (pickStep now lease acc k) = some j := h
        rw [hb] at this
        exact this
      rcases pickFold_improves now lease l b j hrest with h1 | h1
      · exact fun hc => hnb (h1 ▸ hc)
      · exact fun hc => hnb (claimBefore_trans hc h1)
    · exact ih (pickStep now lease acc x) j h k hkl hke

theorem pickBest_spec (now lease : Int) (l : List Job) (j : Job)
    (h : pickBest now lease l = some j) :
    j ∈ l ∧ eligible now lease j = true ∧
      ∀ k ∈ l, eligible now lease k = true → ¬ ClaimBeforeP k j := by
  rw [pickBest_eq_foldl] at h
  rcases pickFold_mem now lease l none j h with h1 | h1
  · cases h1
  · exact ⟨h1.1, h1.2, pickFold_minimal now lease l none j h⟩

theorem getJob_update_job_state (i : String) (st : JState) (now : Int) (s : Store) :
    getJob (update_job_state i st now s) i =
      (getJob s i).map (fun j => { j with state := st, updated_at := now }) :=
  getJob_updJobs_self s i _ (fun _ => rfl)

theorem getJob_increment_job_attempts (i : String) (now : Int) (s : Store) :
    getJob (increment_job_attempts i now s) i =
      (getJob s i).map (fun j => { j with attempts := j.attempts + 1, updated_at := now }) :=
  getJob_updJobs_self s i _ (fun _ => rfl)

theorem getJob_update_job_error (i err : String) (now : Int) (s : Store) :
    getJob (update_job_error i err now s) i =
      (getJob s i).map (fun j => { j with last_error := some err, updated_at := now }) :=
  getJob_updJobs_self s i _ (fun _ => rfl)

theorem getJob_set_job_retry_at (i : String) (retryAt now : Int) (s : Store) :
    getJob (set_job_retry_at i retryAt now s) i =
      (getJob s i).map (fun j => { j with retry_at := some retryAt, updated_at := now }) :=
  getJob_updJobs_self s i _ (fun _ => rfl)

theorem getJob_unlock_job (i : String) (now : Int) (s : Store) :
    getJob (unlock_job i now s) i =
      (getJob s i).map (fun j =>
        { j with locked_by := none, locked_at := none, updated_at := now }) :=
  getJob_updJobs_self s i _ (fun _ => rfl)

theorem getJob_update_job_output (i out err : String) (code : Int) (now : Int) (s : Store) :
    getJob (update_job_output i out err code now s) i =
      (getJob s i).map (fun j =>
        { j with stdout_log := some out, stderr_log := some err,
                 exit_code := some code, updated_at := now }) :=
  getJob_updJobs_self s i _ (fun _ => rfl)

theorem dlq_updJobs (s : Store) (i : String) (f : Job → Job) :
    (updJobs s i f).dlq = s.dlq := rfl

theorem move_to_dlq_eq (jid reason : String) (now : Int) (did : Nat) (s : Store)
    (job : Job) (h : getJob s jid = some job) :
    move_to_dlq jid reason now did s =
      update_job_state jid JState.dead now
        ⟨s.jobs, s.dlq ++ [⟨did, jid, now, reason, job⟩]⟩ := by
  unfold move_to_dlq
  rw [h]

/-! ### Claim C3 -/

/-- C3: pick_pending_job's WHERE clause selects a row iff its state is
pending, its run_at is null or at most now, and either it is unlocked or
its lock is stale (locked_at + lease < now); the predicate never consults
retry_at, and only pending rows are claimable. -/
theorem claim_eligibility_characterization (now lease : Int) (j : Job) :
    (eligible now lease j = true ↔
      (j.state = JState.pending ∧
        (j.run_at = none ∨ ∃ r, j.run_at = some r ∧ r ≤ now) ∧
        (j.locked_by = none ∨ ∃ t, j.locked_at = some t ∧ t + lease < now))) ∧
    (∀ r, eligible now lease { j with retry_at := r } = eligible now lease j) := by
  constructor
  · unfold eligible runAtReady lockFree
    cases hra : j.run_at <;> cases hlb : j.locked_by <;> cases hla : j.locked_at <;>
      (simp [hra, hlb, hla, lt_sub_iff_add_lt]; try tauto)
  · intro r
    rfl

/-! ### Claim C10 -/

/-- C10: move_to_dlq on a job id with no row in the jobs table leaves the
store completely unchanged (it returns silently). -/
theorem move_to_dlq_missing_job_noop (s : Store) (jobId reason : String)
    (now : Int) (dlqId : Nat) (h : getJob s jobId = none) :
    move_to_dlq jobId reason now dlqId s = s := by
  unfold move_to_dlq
  rw [h]

theorem move_to_dlq_missing_job_noop_witness :
    getJob ⟨[], []⟩ "ghost" = none ∧
      move_to_dlq "ghost" "some reason" 0 0 ⟨[], []⟩ = (⟨[], []⟩ : Store) :=
  ⟨rfl, move_to_dlq_missing_job_noop ⟨[], []⟩ "ghost" "some reason" 0 0 rfl⟩

/-! ### Claim C4 -/

/-- db.insert_job: a freshly inserted row, with state pending, attempts 0,
and the remaining columns at their schema defaults (NULL). -/
def insertedJob (jobId command : String) (maxRetries priority : Nat)
    (runAt : Option Int) (now : Int) : Job :=
  { id := jobId, command := command, state := JState.pending, attempts := 0,
    max_retries := maxRetries, created_at := now, updated_at := now,
    retry_at := none, run_at := runAt, priority := priority,
    locked_by := none, locked_at := none, last_error := none,
    stdout_log := none, stderr_log := none, exit_code := none,
    completed_at := none }

/-- C4: among eligible rows pick_pending_job's select returns a first row
under the order (priority > 0 class first, then priority descending, then
created_at ascending): the returned row is eligible and no eligible row
sorts strictly before it.  Concretely, a priority-10 job enqueued after a
priority-0 job is the one claimed by the next call. -/
theorem claim_ordering_minimal_and_priority_first :
    (∀ (now lease : Int) (l : List Job) (j : Job),
      pickBest now lease l = some j →
        j ∈ l ∧ eligible now lease j = true ∧
          ∀ k ∈ l, eligible now lease k = true → ¬ ClaimBeforeP k j) ∧
    ((pick_pending_job 7 300 100
        ⟨[insertedJob "p0" "sleep 0" 3 0 none 0,
          insertedJob "p10" "sleep 0" 3 10 none 1], []⟩).1.map Job.id = some "p10") := by
  constructor
  · exact fun now lease l j h => pickBest_spec now lease l j h
  · decide

theorem claim_ordering_minimal_and_priority_first_witness :
    insertedJob "p10" "sleep 0" 3 10 none 1 ∈
        [insertedJob "p0" "sleep 0" 3 0 none 0, insertedJob "p10" "sleep 0" 3 10 none 1] ∧
      eligible 100 300 (insertedJob "p10" "sleep 0" 3 10 none 1) = true :=
  have h := claim_ordering_minimal_and_priority_first.1 100 300
    [insertedJob "p0" "sleep 0" 3 0 none 0, insertedJob "p10" "sleep 0" 3 10 none 1]
    (insertedJob "p10" "sleep 0" 3 10 none 1) (by decide)
  ⟨h.1, h.2.1⟩

/-! ### Claim C5 -/

/-- C5 counterexample: the claim update does not increment attempts, and the
job returned by pick_pending_job carries the old attempts value.  Here the
stored row has attempts 0 and the returned row still has attempts 0, not 1. -/
theorem claim_does_not_increment_attempts :
    (getJob ⟨[insertedJob "a" "true" 3 0 none 0], []⟩ "a").map Job.attempts = some 0 ∧
      ((pick_pending_job 7 300 100
          ⟨[insertedJob "a" "true" 3 0 none 0], []⟩).1.map Job.attempts = some 0) ∧
      ((pick_pending_job 7 300 100
          ⟨[insertedJob "a" "true" 3 0 none 0], []⟩).1.map Job.attempts ≠ some 1) := by
  refine ⟨by decide, by decide, by decide⟩

/-- C5 (amended): the claim transition is one single-row update that sets
locked_by, locked_at, state = processing and updated_at, but it leaves
attempts unchanged: the returned job carries the pre-increment attempts
value, and the increment is performed by a separate update
(increment_job_attempts, the first step of execute_job). -/
theorem claim_sets_lock_fields_attempts_unchanged (pid : Nat) (lease now : Int)
    (s : Store) (j : Job) (s' : Store)
    (hnd : (s.jobs.map Job.id).Nodup)
    (h : pick_pending_job pid lease now s = (some j, s')) :
    ∃ j0, j0 ∈ s.jobs ∧ eligible now lease j0 = true ∧
      j = claimRow pid now j0 ∧
      j.attempts = j0.attempts ∧
      s' = updJobs s j0.id (claimRow pid now) := by
  unfold pick_pending_job at h
  cases hpb : pickBest now lease s.jobs with
  | none =>
    rw [hpb] at h
    cases h
  | some j0 =>
    rw [hpb] at h
    have hspec := pickBest_spec now lease s.jobs j0 hpb
    have hget : getJob s j0.id = some j0 := find_eq_of_mem_nodup hnd hspec.1
    have hget' : getJob (updJobs s j0.id (claimRow pid now)) j0.id =
        some (claimRow pid now j0) := by
      rw [getJob_updJobs_self s j0.id (claimRow pid now) (fun _ => rfl), hget]
      rfl
    have hj : some j = some (claimRow pid now j0) := by
      have h1 := congrArg Prod.fst h
      simp only at h1
      rw [← h1, hget']
    obtain rfl : j = claimRow pid now j0 := Option.some.inj hj
    refine ⟨j0, hspec.1, hspec.2.1, rfl, rfl, ?_⟩
    have h2 := congrArg Prod.snd h
    simp only at h2
    exact h2.symm

theorem claim_sets_lock_fields_attempts_unchanged_witness :
    ∃ j0, j0 ∈ [insertedJob "a" "true" 3 0 none 0] ∧
      eligible 100 300 j0 = true ∧
      claimRow 7 100 (insertedJob "a" "true" 3 0 none 0) = claimRow 7 100 j0 ∧
      (claimRow 7 100 (insertedJob "a" "true" 3 0 none 0)).attempts = j0.attempts ∧
      (pick_pending_job 7 300 100 ⟨[insertedJob "a" "true" 3 0 none 0], []⟩).2 =
        updJobs ⟨[insertedJob "a" "true" 3 0 none 0], []⟩ j0.id (claimRow 7 100) :=
  claim_sets_lock_fields_attempts_unchanged 7 300 100
    ⟨[insertedJob "a" "true" 3 0 none 0], []⟩
    (claimRow 7 100 (insertedJob "a" "true" 3 0 none 0))
    (pick_pending_job 7 300 100 ⟨[insertedJob "a" "true" 3 0 none 0], []⟩).2
    (by decide) (by decide)

/-! ### Claim C6 -/

/-- C6: calculate_backoff is exactly min(base ^ attempts, max) and every
backoff value is capped at max; on a failed execution the worker writes
retry_at = now + backoff evaluated at the post-increment attempt count
(execute_job increments attempts before the failure handler reloads the
row), so the first retry of a job with attempts 0 waits
base ^ 1 = base seconds whenever base ≤ max. -/
theorem backoff_formula_and_retry_at_post_increment :
    (∀ a b m : Nat, calculate_backoff a b m = min (b ^ a) m ∧ calculate_backoff a b m ≤ m) ∧
    (∀ b m : Nat, b ≤ m → calculate_backoff 1 b m = b) ∧
    (∀ (s : Store) (job : Job) (runner : String → Int × String × String)
        (bb mb : Nat) (now : Int) (did : Nat),
      getJob s job.id = some job →
      (runner job.command).1 ≠ 0 →
      job.attempts + 1 < job.max_retries →
      ∃ j', getJob (execute_job job runner bb mb now did s) job.id = some j' ∧
        j'.attempts = job.attempts + 1 ∧
        j'.retry_at = some (now + (calculate_backoff (job.attempts + 1) bb mb : Int)) ∧
        j'.state = JState.pending) := by
  refine ⟨fun a b m => ⟨rfl, min_le_right _ _⟩, ?_, ?_⟩
  · intro b m h
    unfold calculate_backoff
    simp [pow_one, min_eq_left h]
  · intro s job runner bb mb now did hget hc hlt
    have hs2 := getJob_update_job_output job.id (runner job.command).2.1
      (runner job.command).2.2 (runner job.command).1 now
      (increment_job_attempts job.id now s)
    rw [getJob_increment_job_attempts, hget] at hs2
    simp only [Option.map_some'] at hs2
    simp only [execute_job]
    rw [if_neg hc]
    simp only [handle_job_failure, hs2]
    rw [if_pos (by simpa using hlt)]
    rw [getJob_unlock_job, getJob_update_job_state, getJob_set_job_retry_at,
      getJob_update_job_error, hs2]
    simp only [Option.map_some']
    exact ⟨_, rfl, rfl, rfl, rfl⟩

theorem backoff_formula_and_retry_at_post_increment_witness :
    ∃ j', getJob (execute_job (insertedJob "r" "false" 5 0 none 0)
        (fun _ => (1, "", "boom")) 2 300 100 0
        ⟨[insertedJob "r" "false" 5 0 none 0], []⟩)
        (insertedJob "r" "false" 5 0 none 0).id = some j' ∧
      j'.attempts = (insertedJob "r" "false" 5 0 none 0).attempts + 1 ∧
      j'.retry_at = some (100 +
        (calculate_backoff ((insertedJob "r" "false" 5 0 none 0).attempts + 1) 2 300 : Int)) ∧
      j'.state = JState.pending :=
  backoff_formula_and_retry_at_post_increment.2.2
    ⟨[insertedJob "r" "false" 5 0 none 0], []⟩ (insertedJob "r" "false" 5 0 none 0)
    (fun _ => (1, "", "boom")) 2 300 100 0 (by decide) (by decide) (by decide)

/-! ### Claim C7 -/

theorem requeue_from_dlq_none (jid : String) (now : Int) (s0 : Store)
    (h0 : get_dlq_job s0 jid = none) : requeue_from_dlq jid now s0 = (false, s0) := by
  unfold requeue_from_dlq
  rw [h0]

/-- C7: whenever a dead-letter entry for a job exists, requeue_from_dlq
returns true, rewrites the job row with requeueRow (state pending,
attempts 0, retry_at null, locked_by null, locked_at null), and removes the
dead-letter entries of the job; a second requeue then returns false and
changes nothing. -/
theorem requeue_resets_job_and_second_requeue_false (s : Store) (jid : String)
    (now : Int) (e : DlqEntry) (h : get_dlq_job s jid = some e) :
    (requeue_from_dlq jid now s).1 = true ∧
    getJob (requeue_from_dlq jid now s).2 jid = (getJob s jid).map (requeueRow now) ∧
    get_dlq_job (requeue_from_dlq jid now s).2 jid = none ∧
    (∀ now2 : Int, requeue_from_dlq jid now2 (requeue_from_dlq jid now s).2 =
      (false, (requeue_from_dlq jid now s).2)) := by
  have hr : requeue_from_dlq jid now s =
      (true, ⟨(updJobs s jid (requeueRow now)).jobs,
        (updJobs s jid (requeueRow now)).dlq.filter (fun e2 => !decide (e2.job_id = jid))⟩) := by
    unfold requeue_from_dlq
    rw [h]
  have hdlqnone : get_dlq_job (requeue_from_dlq jid now s).2 jid = none := by
    rw [hr]
    apply List.find?_eq_none.mpr
    intro x hx
    have hx2 := (List.mem_filter.mp hx).2
    simp only [Bool.not_eq_true', decide_eq_false_iff_not] at hx2
    simpa using hx2
  refine ⟨by rw [hr], ?_, hdlqnone, ?_⟩
  · rw [hr]
    have : getJob (⟨(updJobs s jid (requeueRow now)).jobs,
        (updJobs s jid (requeueRow now)).dlq.filter
          (fun e2 => !decide (e2.job_id = jid))⟩ : Store) jid =
        getJob (updJobs s jid (requeueRow now)) jid := rfl
    rw [this, getJob_updJobs_self s jid (requeueRow now) (fun _ => rfl)]
  · intro now2
    exact requeue_from_dlq_none jid now2 _ hdlqnone

theorem requeue_resets_job_and_second_requeue_false_witness :
    (requeue_from_dlq "x" 9 ⟨[⟨"x", "cmd", JState.dead, 2, 1, 0, 5, none, none, 0,
        some 7, some 4, some "boom", none, none, some 1, none⟩],
      [⟨0, "x", 5, "Max retries exceeded: boom",
        ⟨"x", "cmd", JState.dead, 2, 1, 0, 5, none, none, 0,
          some 7, some 4, some "boom", none, none, some 1, none⟩⟩]⟩).1 = true ∧
    getJob (requeue_from_dlq "x" 9 ⟨[⟨"x", "cmd", JState.dead, 2, 1, 0, 5, none, none, 0,
        some 7, some 4, some "boom", none, none, some 1, none⟩],
      [⟨0, "x", 5, "Max retries exceeded: boom",
        ⟨"x", "cmd", JState.dead, 2, 1, 0, 5, none, none, 0,
          some 7, some 4, some "boom", none, none, some 1, none⟩⟩]⟩).2 "x" =
      (getJob ⟨[⟨"x", "cmd", JState.dead, 2, 1, 0, 5, none, none, 0,
          some 7, some 4, some "boom", none, none, some 1, none⟩],
        [⟨0, "x", 5, "Max retries exceeded: boom",
          ⟨"x", "cmd", JState.dead, 2, 1, 0, 5, none, none, 0,
            some 7, some 4, some "boom", none, none, some 1, none⟩⟩]⟩ "x").map
        (requeueRow 9) ∧
    get_dlq_job (requeue_from_dlq "x" 9 ⟨[⟨"x", "cmd", JState.dead, 2, 1, 0, 5, none, none, 0,
        some 7, some 4, some "boom", none, none, some 1, none⟩],
      [⟨0, "x", 5, "Max retries exceeded: boom",
        ⟨"x", "cmd", JState.dead, 2, 1, 0, 5, none, none, 0,
          some 7, some 4, some "boom", none, none, some 1, none⟩⟩]⟩).2 "x" = none ∧
    (∀ now2 : Int, requeue_from_dlq "x" now2
        (requeue_from_dlq "x" 9 ⟨[⟨"x", "cmd", JState.dead, 2, 1, 0, 5, none, none, 0,
            some 7, some 4, some "boom", none, none, some 1, none⟩],
          [⟨0, "x", 5, "Max retries exceeded: boom",
            ⟨"x", "cmd", JState.dead, 2, 1, 0, 5, none, none, 0,
              some 7, some 4, some "boom", none, none, some 1, none⟩⟩]⟩).2 =
      (false, (requeue_from_dlq "x" 9 ⟨[⟨"x", "cmd", JState.dead, 2, 1, 0, 5, none, none, 0,
            some 7, some 4, some "boom", none, none, some 1, none⟩],
          [⟨0, "x", 5, "Max retries exceeded: boom",
            ⟨"x", "cmd", JState.dead, 2, 1, 0, 5, none, none, 0,
              some 7, some 4, some "boom", none, none, some 1, none⟩⟩]⟩).2)) :=
  requeue_resets_job_and_second_requeue_false
    ⟨[⟨"x", "cmd", JState.dead, 2, 1, 0, 5, none, none, 0,
        some 7, some 4, some "boom", none, none, some 1, none⟩],
      [⟨0, "x", 5, "Max retries exceeded: boom",
        ⟨"x", "cmd", JState.dead, 2, 1, 0, 5, none, none, 0,
          some 7, some 4, some "boom", none, none, some 1, none⟩⟩]⟩ "x" 9
    ⟨0, "x", 5, "Max retries exceeded: boom",
      ⟨"x", "cmd", JState.dead, 2, 1, 0, 5, none, none, 0,
        some 7, some 4, some "boom", none, none, some 1, none⟩⟩ (by decide)

/-! ### Claim C8 -/

/-- A pending job whose retry has come due, still carrying its retry_at and
a (stale) lock. -/
def exJobC8r : Job :=
  { insertedJob "r" "cmd" 3 0 none 0 with
      retry_at := some 5, locked_by := some 3, locked_at := some 0 }

/-- A pending job whose retry_at equals now exactly. -/
def exJobC8b : Job :=
  { insertedJob "b" "cmd" 3 0 none 1 with
      retry_at := some 10, locked_by := some 3, locked_at := some 0 }

/-- C8 counterexample: promotion does not clear retry_at (the job promoted at
now = 10 still has retry_at = 5 afterwards), and a pending row with
retry_at = now is not promoted at all (the comparison is strict, so its lock
fields stay set), refuting both the "retry_at is cleared" part and the
"retry_at ≤ now" boundary of the claim. -/
theorem promotion_keeps_retry_at :
    ((getJob (move_ready_jobs_to_pending 10 ⟨[exJobC8r, exJobC8b], []⟩).2 "r").map
        Job.retry_at = some (some 5)) ∧
    ((getJob (move_ready_jobs_to_pending 10 ⟨[exJobC8r, exJobC8b], []⟩).2 "r").map
        Job.retry_at ≠ some none) ∧
    ((getJob (move_ready_jobs_to_pending 10 ⟨[exJobC8r, exJobC8b], []⟩).2 "r").map
        Job.locked_by = some none) ∧
    ((getJob (move_ready_jobs_to_pending 10 ⟨[exJobC8r, exJobC8b], []⟩).2 "b").map
        Job.locked_by = some (some 3)) := by
  refine ⟨by decide, by decide, by decide, by decide⟩

/-- C8 (amended): promotion maps every pending row whose retry_at is
strictly earlier than now (retryReady) to the same row with only the lock
fields cleared — retry_at is retained, not cleared — leaves every other row
unchanged, and is idempotent. -/
theorem promotion_clears_locks_strict_and_idempotent :
    (∀ (now : Int) (s : Store),
      (move_ready_jobs_to_pending now (move_ready_jobs_to_pending now s).2).2 =
        (move_ready_jobs_to_pending now s).2) ∧
    (∀ (now : Int) (j : Job),
      retryReady now j = true ↔
        (j.state = JState.pending ∧ ∃ r, j.retry_at = some r ∧ r < now)) ∧
    (∀ (now : Int) (s : Store) (j : Job), j ∈ s.jobs → retryReady now j = true →
      promoteRow j ∈ (move_ready_jobs_to_pending now s).2.jobs ∧
        (promoteRow j).retry_at = j.retry_at ∧ (promoteRow j).locked_by = none ∧
        (promoteRow j).locked_at = none ∧ (promoteRow j).state = JState.pending) ∧
    (∀ (now : Int) (s : Store) (j : Job), j ∈ s.jobs → retryReady now j = false →
      j ∈ (move_ready_jobs_to_pending now s).2.jobs) := by
  refine ⟨?_, ?_, ?_, ?_⟩
  · intro now s
    have hrow : ∀ j : Job,
        (if retryReady now (if retryReady now j then promoteRow j else j)
          then promoteRow (if retryReady now j then promoteRow j else j)
          else (if retryReady now j then promoteRow j else j)) =
          (if retryReady now j then promoteRow j else j) := by
      intro j
      by_cases hj : retryReady now j = true
      · have hpj : retryReady now (promoteRow j) = true := by
          unfold retryReady at hj ⊢
          simp only [Bool.and_eq_true] at hj ⊢
          exact ⟨by simp [promoteRow], hj.2⟩
        simp [hj, hpj, promoteRow]
      · simp [hj, Bool.eq_false_iff.mpr hj]
    unfold move_ready_jobs_to_pending
    dsimp only
    congr 1
    rw [List.map_map]
    have hfun : ((fun j => if retryReady now j then promoteRow j else j) ∘
        fun j => if retryReady now j then promoteRow j else j) =
        fun j : Job => if retryReady now j then promoteRow j else j := by
      funext j
      exact hrow j
    rw [hfun]
  · intro now j
    unfold retryReady
    cases hra : j.retry_at <;> simp [hra]
  · intro now s j hm hready
    refine ⟨?_, rfl, rfl, rfl, rfl⟩
    have h1 := List.mem_map_of_mem
      (fun j : Job => if retryReady now j then promoteRow j else j) hm
    simp only [hready, if_true] at h1
    unfold move_ready_jobs_to_pending
    dsimp only
    exact h1
  · intro now s j hm hready
    have h1 := List.mem_map_of_mem
      (fun j : Job => if retryReady now j then promoteRow j else j) hm
    simp only [hready, Bool.false_eq_true, if_false] at h1
    unfold move_ready_jobs_to_pending
    dsimp only
    exact h1

theorem promotion_clears_locks_strict_and_idempotent_witness :
    promoteRow exJobC8r ∈ (move_ready_jobs_to_pending 10 ⟨[exJobC8r, exJobC8b], []⟩).2.jobs ∧
      (promoteRow exJobC8r).retry_at = exJobC8r.retry_at ∧
      (promoteRow exJobC8r).locked_by = none ∧ (promoteRow exJobC8r).locked_at = none ∧
      (promoteRow exJobC8r).state = JState.pending :=
  promotion_clears_locks_strict_and_idempotent.2.2.1 10 ⟨[exJobC8r, exJobC8b], []⟩
    exJobC8r (by decide) (by decide)

/-! ### Claim C9 -/

/-- A job already in dead state. -/
def exJobC9 : Job := { insertedJob "x" "cmd" 1 0 none 0 with state := JState.dead }

/-- The dead-letter entry the job already has. -/
def exEntryC9 : DlqEntry :=
  ⟨0, "x", 1, "Max retries exceeded: boom", insertedJob "x" "cmd" 1 0 none 0⟩

/-- A store in which job x is dead with exactly one dead-letter entry. -/
def exStoreC9 : Store := ⟨[exJobC9], [exEntryC9]⟩

/-- C9 counterexample: move_to_dlq does not check the job's state, so a job
already in dead (with exactly one dead-letter entry) is moved again and ends
up with two dead-letter entries. -/
theorem dead_job_moved_again_duplicate_entry :
    ((getJob exStoreC9 "x").map Job.state = some JState.dead) ∧
    (exStoreC9.dlq.filter (fun e => decide (e.job_id = "x"))).length = 1 ∧
    (((move_to_dlq "x" "again" 5 1 exStoreC9).dlq.filter
        (fun e => decide (e.job_id = "x"))).length = 2) := by
  refine ⟨by decide, by decide, by decide⟩

/-- C9 (amended): move_to_dlq moves any job whose row exists, regardless of
its current state — including a job already dead — always appending one new
dead-letter entry (with the pre-move snapshot) and setting the state to
dead, so it alone does not guarantee at most one entry per dead job. -/
theorem move_to_dlq_appends_entry_any_state (s : Store) (jid reason : String)
    (now : Int) (did : Nat) (job : Job) (h : getJob s jid = some job) :
    (move_to_dlq jid reason now did s).dlq = s.dlq ++ [⟨did, jid, now, reason, job⟩] ∧
    (getJob (move_to_dlq jid reason now did s) jid).map Job.state = some JState.dead := by
  unfold move_to_dlq
  rw [h]
  constructor
  · rfl
  · rw [getJob_update_job_state]
    have h1 : getJob ({ s with dlq := s.dlq ++ [⟨did, jid, now, reason, job⟩] } : Store) jid =
        some job := h
    rw [h1]
    rfl

theorem move_to_dlq_appends_entry_any_state_witness :
    (move_to_dlq "x" "again" 5 1 exStoreC9).dlq = exStoreC9.dlq ++ [⟨1, "x", 5, "again", exJobC9⟩] ∧
    (getJob (move_to_dlq "x" "again" 5 1 exStoreC9) "x").map Job.state = some JState.dead :=
  move_to_dlq_appends_entry_any_state exStoreC9 "x" "again" 5 1 exJobC9 (by decide)

/-! ### Claim C1 -/

/-- A runner standing for exec.execute_command on a command that always
fails with exit code 1 and error output boom. -/
def failRunner : String → Int × String × String := fun _ => (1, "", "boom")

/-- The S3 store: enqueue(id d, command false, max_retries 1). -/
def exStoreC1 : Store := ⟨[insertedJob "d" "false" 1 0 none 0], []⟩

/-- C1 counterexample: with max_retries = 1 and an always-failing command,
one worker cycle already leaves the job dead with attempts = 1 — the job is
executed once, not twice, because the first failure already has
attempts (1) ≥ max_retries (1). -/
theorem dead_after_first_failure_when_max_retries_one :
    ((getJob (process_one_job 7 300 failRunner 2 300 100 0 exStoreC1) "d").map Job.state
        = some JState.dead) ∧
    ((getJob (process_one_job 7 300 failRunner 2 300 100 0 exStoreC1) "d").map Job.attempts
        = some 1) ∧
    ((get_dlq_job (process_one_job 7 300 failRunner 2 300 100 0 exStoreC1) "d").map
        DlqEntry.reason = some ("Max retries exceeded: " ++ "Exit code 1: boom")) := by
  refine ⟨by decide, by decide, by decide⟩

/-- C1 (amended): for a job with max_retries = 1 whose command always
fails, one worker executes it once (attempts reaching 1), after which it is
dead with a dead-letter entry whose reason begins "Max retries exceeded:";
in general, on failure attempts strictly below max_retries schedules a
retry, while attempts at or above max_retries moves the job to dead. -/
theorem failure_retry_below_dead_at_max :
    (((getJob (process_one_job 7 300 failRunner 2 300 100 0 exStoreC1) "d").map Job.state
        = some JState.dead) ∧
     ((getJob (process_one_job 7 300 failRunner 2 300 100 0 exStoreC1) "d").map Job.attempts
        = some 1) ∧
     (∃ e ∈ (process_one_job 7 300 failRunner 2 300 100 0 exStoreC1).dlq,
        e.job_id = "d" ∧ e.reason = "Max retries exceeded: " ++ "Exit code 1: boom")) ∧
    (∀ (s : Store) (jid err : String) (bb mb : Nat) (now : Int) (did : Nat) (job : Job),
      getJob s jid = some job →
      ((job.attempts < job.max_retries →
        ∃ j', getJob (handle_job_failure jid err bb mb now did s) jid = some j' ∧
          j'.state = JState.pending ∧
          j'.retry_at = some (calculate_retry_at now job.attempts bb mb) ∧
          (handle_job_failure jid err bb mb now did s).dlq = s.dlq) ∧
       (job.max_retries ≤ job.attempts →
        ∃ j', getJob (handle_job_failure jid err bb mb now did s) jid = some j' ∧
          j'.state = JState.dead ∧
          ∃ e ∈ (handle_job_failure jid err bb mb now did s).dlq,
            e.job_id = jid ∧ e.reason = "Max retries exceeded: " ++ err))) := by
  constructor
  · refine ⟨by decide, by decide, by decide⟩
  · intro s jid err bb mb now did job h
    constructor
    · intro hlt
      simp only [handle_job_failure, h]
      rw [if_pos hlt]
      rw [getJob_unlock_job, getJob_update_job_state, getJob_set_job_retry_at,
        getJob_update_job_error, h]
      simp only [Option.map_some']
      exact ⟨_, rfl, rfl, rfl, rfl⟩
    · intro hge
      simp only [handle_job_failure, h]
      rw [if_neg (not_lt.mpr hge)]
      have h1 : getJob (update_job_error jid err now s) jid =
          some { job with last_error := some err, updated_at := now } := by
        rw [getJob_update_job_error, h]
        rfl
      rw [move_to_dlq_eq jid ("Max retries exceeded: " ++ err) now did
        (update_job_error jid err now s)
        { job with last_error := some err, updated_at := now } h1]
      refine ⟨{ job with last_error := some err, state := JState.dead, updated_at := now },
        ?_, rfl, ?_⟩
      · rw [getJob_update_job_state]
        have h2 : getJob (⟨(update_job_error jid err now s).jobs,
            (update_job_error jid err now s).dlq ++
              [⟨did, jid, now, "Max retries exceeded: " ++ err,
                { job with last_error := some err, updated_at := now }⟩]⟩ : Store) jid =
            some { job with last_error := some err, updated_at := now } := h1
        rw [h2]
        rfl
      · refine ⟨⟨did, jid, now, "Max retries exceeded: " ++ err,
          { job with last_error := some err, updated_at := now }⟩, ?_, rfl, rfl⟩
        have hdlq : (update_job_state jid JState.dead now
            (⟨(update_job_error jid err now s).jobs,
              (update_job_error jid err now s).dlq ++
                [⟨did, jid, now, "Max retries exceeded: " ++ err,
                  { job with last_error := some err, updated_at := now }⟩]⟩ : Store)).dlq =
            s.dlq ++ [⟨did, jid, now, "Max retries exceeded: " ++ err,
              { job with last_error := some err, updated_at := now }⟩] := rfl
        rw [hdlq]
        exact List.mem_append_right _ (List.mem_singleton.mpr rfl)

/-- A processing job out of retry budget, as seen by the failure handler. -/
def exJobC1w : Job :=
  { insertedJob "w" "false" 1 0 none 0 with
      attempts := 1, state := JState.processing, locked_by := some 7, locked_at := some 40 }

theorem failure_retry_below_dead_at_max_witness :
    ∃ j', getJob (handle_job_failure "w" "boom" 2 300 50 4 ⟨[exJobC1w], []⟩) "w" = some j' ∧
      j'.state = JState.dead ∧
      ∃ e ∈ (handle_job_failure "w" "boom" 2 300 50 4 ⟨[exJobC1w], []⟩).dlq,
        e.job_id = "w" ∧ e.reason = "Max retries exceeded: " ++ "boom" :=
  (failure_retry_below_dead_at_max.2 ⟨[exJobC1w], []⟩ "w" "boom" 2 300 50 4 exJobC1w
    (by decide)).2 (by decide)

/-! ### Claim C2 -/

/-- Spec invariant "state ∈ \x7bcompleted, dead\x7d implies locked_by null",
restricted to the completed half that the code actually maintains. -/
def CompletedUnlocked (s : Store) : Prop :=
  ∀ j ∈ s.jobs, j.state = JState.completed → j.locked_by = none ∧ j.locked_at = none

theorem mem_updJobs (s : Store) (i : String) (f : Job → Job) (j' : Job)
    (h : j' ∈ (updJobs s i f).jobs) :
    ∃ j ∈ s.jobs, j' = if j.id = i then f j else j := by
  have h2 : j' ∈ s.jobs.map (fun j => if j.id = i then f j else j) := h
  rcases List.mem_map.mp h2 with ⟨j, hj, he⟩
  exact ⟨j, hj, he.symm⟩

theorem completedUnlocked_updJobs_of (s : Store) (i : String) (f : Job → Job)
    (hs : CompletedUnlocked s)
    (hrow : ∀ j, j ∈ s.jobs → j.id = i →
      ((f j).state = JState.completed → (f j).locked_by = none ∧ (f j).locked_at = none)) :
    CompletedUnlocked (updJobs s i f) := by
  intro j' hj' hst
  rcases mem_updJobs s i f j' hj' with ⟨j, hj, he⟩
  by_cases hid : j.id = i
  · rw [if_pos hid] at he
    subst he
    exact hrow j hj hid hst
  · rw [if_neg hid] at he
    subst he
    exact hs j' hj hst

/-- C2 counterexample: the worker's dead-letter path never unlocks the job —
move_to_dlq leaves locked_by and locked_at untouched and the failure handler
does not call unlock_job on the dead branch — so a job that just went dead
still carries locked_by = 7 from its claim, violating
"dead implies locked_by = null". -/
theorem dead_job_retains_lock_fields :
    ((getJob (process_one_job 7 300 failRunner 2 300 100 0 exStoreC1) "d").map Job.state
        = some JState.dead) ∧
    ((getJob (process_one_job 7 300 failRunner 2 300 100 0 exStoreC1) "d").map Job.locked_by
        = some (some 7)) ∧
    ((getJob (process_one_job 7 300 failRunner 2 300 100 0 exStoreC1) "d").map Job.locked_by
        ≠ some none) := by
  refine ⟨by decide, by decide, by decide⟩

/-- C2 (amended): the "completed implies lock fields null" half of the
invariant is preserved by every one of the normal operations (claim,
success, retry and dead-letter via the failure handler, the dead-letter
move itself, requeue); the "dead implies lock fields null" half is not
maintained — a job moved to dead keeps the lock fields of its claim until
requeue clears them. -/
theorem completed_unlocked_invariant_preserved :
    (∀ (pid : Nat) (lease now : Int) (s : Store), CompletedUnlocked s →
      CompletedUnlocked (pick_pending_job pid lease now s).2) ∧
    (∀ (i : String) (now : Int) (s : Store), CompletedUnlocked s →
      CompletedUnlocked (handle_job_success i now s)) ∧
    (∀ (i err : String) (bb mb : Nat) (now : Int) (did : Nat) (s : Store),
      CompletedUnlocked s → CompletedUnlocked (handle_job_failure i err bb mb now did s)) ∧
    (∀ (i reason : String) (now : Int) (did : Nat) (s : Store), CompletedUnlocked s →
      CompletedUnlocked (move_to_dlq i reason now did s)) ∧
    (∀ (i : String) (now : Int) (s : Store), CompletedUnlocked s →
      CompletedUnlocked (requeue_from_dlq i now s).2) := by
  refine ⟨?_, ?_, ?_, ?_, ?_⟩
  · intro pid lease now s hs
    unfold pick_pending_job
    cases pickBest now lease s.jobs with
    | none => exact hs
    | some j =>
      dsimp only
      exact completedUnlocked_updJobs_of s j.id (claimRow pid now) hs
        (fun k _ _ hst => by simp [claimRow] at hst)
  · intro i now s hs j' hj' hst
    rcases mem_updJobs (update_job_completed_at i now (update_job_state i JState.completed now s))
        i (fun j => { j with locked_by := none, locked_at := none, updated_at := now }) j' hj'
      with ⟨j2, hj2, he3⟩
    by_cases h3 : j2.id = i
    · rw [if_pos h3] at he3
      subst he3
      exact ⟨rfl, rfl⟩
    · rw [if_neg h3] at he3
      subst he3
      rcases mem_updJobs (update_job_state i JState.completed now s) i
          (fun j => { j with completed_at := some now, updated_at := now }) j' hj2
        with ⟨j1, hj1, he2⟩
      by_cases h2 : j1.id = i
      · rw [if_pos h2] at he2
        rw [he2] at h3
        exact absurd h2 h3
      · rw [if_neg h2] at he2
        subst he2
        rcases mem_updJobs s i
            (fun j => { j with state := JState.completed, updated_at := now }) j' hj1
          with ⟨j0, hj0, he1⟩
        by_cases h1 : j0.id = i
        · rw [if_pos h1] at he1
          rw [he1] at h2
          exact absurd h1 h2
        · rw [if_neg h1] at he1
          subst he1
          exact hs j' hj0 hst
  · intro i err bb mb now did s hs
    have hs1 : CompletedUnlocked (update_job_error i err now s) :=
      completedUnlocked_updJobs_of s i
        (fun j => { j with last_error := some err, updated_at := now }) hs
        (fun k hk _ hst => hs k hk hst)
    unfold handle_job_failure
    cases hg : getJob s i with
    | none => exact hs
    | some job =>
      dsimp only
      by_cases hlt : job.attempts < job.max_retries
      · rw [if_pos hlt]
        have hs2 : CompletedUnlocked (set_job_retry_at i
            (calculate_retry_at now job.attempts bb mb) now (update_job_error i err now s)) :=
          completedUnlocked_updJobs_of (update_job_error i err now s) i
            (fun j => { j with retry_at := some (calculate_retry_at now job.attempts bb mb),
                               updated_at := now }) hs1
            (fun k hk _ hst => hs1 k hk hst)
        have hs3 : CompletedUnlocked (update_job_state i JState.pending now
            (set_job_retry_at i (calculate_retry_at now job.attempts bb mb) now
              (update_job_error i err now s))) :=
          completedUnlocked_updJobs_of _ i
            (fun j => { j with state := JState.pending, updated_at := now }) hs2
            (fun k _ _ hst => by simp at hst)
        exact completedUnlocked_updJobs_of _ i
          (fun j => { j with locked_by := none, locked_at := none, updated_at := now }) hs3
          (fun k _ _ _ => ⟨rfl, rfl⟩)
      · rw [if_neg hlt]
        unfold move_to_dlq
        cases hg1 : getJob (update_job_error i err now s) i with
        | none => exact hs1
        | some job1 =>
          dsimp only
          have hs1' : CompletedUnlocked (⟨(update_job_error i err now s).jobs,
              (update_job_error i err now s).dlq ++
                [⟨did, i, now, "Max retries exceeded: " ++ err, job1⟩]⟩ : Store) := hs1
          exact completedUnlocked_updJobs_of _ i
            (fun j => { j with state := JState.dead, updated_at := now }) hs1'
            (fun k _ _ hst => by simp at hst)
  · intro i reason now did s hs
    unfold move_to_dlq
    cases hg : getJob s i with
    | none => exact hs
    | some job =>
      dsimp only
      have hs' : CompletedUnlocked (⟨s.jobs,
          s.dlq ++ [⟨did, i, now, reason, job⟩]⟩ : Store) := hs
      exact completedUnlocked_updJobs_of _ i
        (fun j => { j with state := JState.dead, updated_at := now }) hs'
        (fun k _ _ hst => by simp at hst)
  · intro i now s hs
    unfold requeue_from_dlq
    cases hg : get_dlq_job s i with
    | none => exact hs
    | some e =>
      dsimp only
      have hs1 : CompletedUnlocked (updJobs s i (requeueRow now)) :=
        completedUnlocked_updJobs_of s i (requeueRow now) hs
          (fun k _ _ hst => by simp [requeueRow] at hst)
      exact hs1

theorem completed_unlocked_invariant_preserved_witness :
    CompletedUnlocked (handle_job_success "a" 5 ⟨[insertedJob "a" "true" 3 0 none 0], []⟩) :=
  completed_unlocked_invariant_preserved.2.1 "a" 5
    ⟨[insertedJob "a" "true" 3 0 none 0], []⟩ (by unfold CompletedUnlocked; decide)

end QueueCtl
